import Mathlib

/-
Verification of the pointer-interaction logic of the W_hotbox test model
(test_mouse_events.py): coordinate mapping, boundary-inclusive hit testing,
first-match region lookup, and hover-state reconciliation.

Modelling conventions:
- Python integers become Lean Int (coordinates are plain ints in the source).
- Object identity of a button is represented by its index in the hotbox's
  button list: the Python code compares buttons with the default identity
  based equality, and every button object the code stores or returns is an
  element of that list (or None), so list position is a faithful identity.
- The mutation of button flags and of the hotbox reference becomes explicit
  state passing; the printed setSelectionStatus calls become an emitted event
  list of pairs (button index, new flag value), in emission order.
-/

structure QPoint where
  x : Int
  y : Int
deriving DecidableEq

structure QRect where
  x : Int
  y : Int
  width : Int
  height : Int
deriving DecidableEq

/-- Containment test of QRect.contains: the chained comparison
self.x <= point.x <= self.x + self.width and likewise in y,
inclusive on all four edges. -/
def QRect.contains (r : QRect) (point : QPoint) : Bool :=
  decide (r.x ≤ point.x ∧ point.x ≤ r.x + r.width ∧
          r.y ≤ point.y ∧ point.y ≤ r.y + r.height)

structure MockButton where
  name : String
  parent_pos : Int × Int
  size : Int × Int
  selected : Bool
deriving DecidableEq

/-- The button's rectangle in its own coordinate system, QRect(0, 0, w, h). -/
def MockButton.rect (b : MockButton) : QRect :=
  ⟨0, 0, b.size.1, b.size.2⟩

/-- Coordinate mapping of MockButton.mapFrom: subtract the button's position
in its parent. The source widget argument of the Python method is unused by
the code and is omitted. -/
def MockButton.mapFrom (b : MockButton) (pos : QPoint) : QPoint :=
  ⟨pos.x - b.parent_pos.1, pos.y - b.parent_pos.2⟩

/-- The hit test applied to one button inside _findButtonAtPosition:
map the position into the button's local space and test containment
against the button's own rect. -/
def hitTest (b : MockButton) (pos : QPoint) : Bool :=
  (b.rect).contains (b.mapFrom pos)

structure MockHotbox where
  hoveredButton : Option Nat
  buttons : List MockButton
deriving DecidableEq

/-- First-match lookup of MockHotbox._findButtonAtPosition: walk the button
list in order and return the first button whose rect contains the mapped
position; the returned button object is represented by its index. The
isinstance filter of the source is the identity here because the list is
already typed. -/
def findButtonAtPosition (buttons : List MockButton) (pos : QPoint) : Option Nat :=
  match buttons with
  | [] => none
  | button :: rest =>
      if (button.rect).contains (button.mapFrom pos) then some 0
      else (findButtonAtPosition rest pos).map (fun i => i + 1)

/-- The clear loop of simulate_mouseMove: for each button that is selected,
set its flag to false and emit a deselect event carrying its index. The
counter argument is the index of the head of the remaining list. -/
def clearStep : List MockButton → Nat → List MockButton × List (Nat × Bool)
  | [], _ => ([], [])
  | b :: rest, i =>
      let r := clearStep rest (i + 1)
      if b.selected then (⟨b.name, b.parent_pos, b.size, false⟩ :: r.1, (i, false) :: r.2)
      else (b :: r.1, r.2)

/-- Indices of the currently selected buttons, in list order, starting the
count at the given index. Used to describe the deselect events. -/
def selectedIndices : List MockButton → Nat → List Nat
  | [], _ => []
  | b :: rest, i =>
      if b.selected then i :: selectedIndices rest (i + 1)
      else selectedIndices rest (i + 1)

/-- Set the selection flag of the button at the given index, the effect of
button_under_cursor.setSelectionStatus(True) on the stored list. -/
def setSelectedAt : List MockButton → Nat → List MockButton
  | [], _ => []
  | b :: rest, 0 => ⟨b.name, b.parent_pos, b.size, true⟩ :: rest
  | b :: rest, i + 1 => b :: setSelectedAt rest i

/-- The event handler MockHotbox.simulate_mouseMove: compute the button under
the cursor, compare with the stored hovered button by identity; on a change,
clear all selected buttons (emitting deselects), store the winner and, when
it exists, set its flag (emitting one select); otherwise do nothing. -/
def MockHotbox.simulate_mouseMove (h : MockHotbox) (pos : QPoint) :
    MockHotbox × List (Nat × Bool) :=
  let winner := findButtonAtPosition h.buttons pos
  if winner = h.hoveredButton then (h, [])
  else
    let cleared := clearStep h.buttons 0
    match winner with
    | none => (⟨none, cleared.1⟩, cleared.2)
    | some i => (⟨some i, setSelectedAt cleared.1 i⟩, cleared.2 ++ [(i, true)])

/-- Fold a sequence of pointer positions through simulate_mouseMove,
keeping only the state. -/
def runMoves (h : MockHotbox) (ps : List QPoint) : MockHotbox :=
  ps.foldl (fun s p => (s.simulate_mouseMove p).1) h

/-- The immutable part of a button: identifier, offset and size —
everything except the selection flag. -/
def buttonFrame (b : MockButton) : String × (Int × Int) × (Int × Int) :=
  (b.name, b.parent_pos, b.size)

/-- The single-selection invariant as the spec states it: at most one button
has its flag set, and a flagged button is exactly the hovered one. -/
def singleSelection (h : MockHotbox) : Prop :=
  (h.buttons.filter (fun b => b.selected)).length ≤ 1 ∧
  ∀ i, (hi : i < h.buttons.length) →
    (h.buttons.get ⟨i, hi⟩).selected = true → h.hoveredButton = some i

/-- The stronger synchronisation property: a button's flag is set exactly
when the hotbox's hovered reference points at it. -/
def hoverSync (h : MockHotbox) : Prop :=
  ∀ i, (hi : i < h.buttons.length) →
    ((h.buttons.get ⟨i, hi⟩).selected = true ↔ h.hoveredButton = some i)

/-- Inverse of the coordinate mapping: add the button's parent offset back. -/
def mapTo (b : MockButton) (pos : QPoint) : QPoint :=
  ⟨pos.x + b.parent_pos.1, pos.y + b.parent_pos.2⟩

/-- Button1 of the test fixtures: offset (10, 10), size (105, 35). -/
def button1 : MockButton := ⟨"Button1", (10, 10), (105, 35), false⟩

/-- Button2 of the test fixtures: offset (125, 10), size (105, 35). -/
def button2 : MockButton := ⟨"Button2", (125, 10), (105, 35), false⟩

/-- Button3 of the test fixtures: offset (10, 55), size (105, 35). -/
def button3 : MockButton := ⟨"Button3", (10, 55), (105, 35), false⟩

/-! Basic lemmas about the hit test and the lookup. -/

theorem hitTest_eq (b : MockButton) (pos : QPoint) :
    hitTest b pos =
      decide (0 ≤ pos.x - b.parent_pos.1 ∧ pos.x - b.parent_pos.1 ≤ b.size.1 ∧
              0 ≤ pos.y - b.parent_pos.2 ∧ pos.y - b.parent_pos.2 ≤ b.size.2) := by
  simp [hitTest, MockButton.rect, MockButton.mapFrom, QRect.contains]


theorem hitTest_true_iff (b : MockButton) (pos : QPoint) :
    hitTest b pos = true ↔
      (0 ≤ pos.x - b.parent_pos.1 ∧ pos.x - b.parent_pos.1 ≤ b.size.1 ∧
       0 ≤ pos.y - b.parent_pos.2 ∧ pos.y - b.parent_pos.2 ≤ b.size.2) := by
  rw [hitTest_eq]
  exact decide_eq_true_iff

/-- Buttons with the same frame data give the same hit-test result: the
selection flag and the name play no role in containment. -/
theorem hitTest_congr (a b : MockButton) (pos : QPoint)
    (h : a.parent_pos = b.parent_pos) (hs : a.size = b.size) :
    hitTest a pos = hitTest b pos := by
  simp [hitTest_eq, h, hs]

theorem findButtonAtPosition_nil (pos : QPoint) :
    findButtonAtPosition [] pos = none := rfl

theorem findButtonAtPosition_cons (b : MockButton) (rest : List MockButton) (pos : QPoint) :
    findButtonAtPosition (b :: rest) pos =
      if hitTest b pos then some 0
      else (findButtonAtPosition rest pos).map (fun i => i + 1) := by
  simp [findButtonAtPosition, hitTest]

theorem findButtonAtPosition_lt (buttons : List MockButton) (pos : QPoint) (i : Nat)
    (h : findButtonAtPosition buttons pos = some i) : i < buttons.length := by
  induction buttons generalizing i with
  | nil => simp [findButtonAtPosition_nil] at h
  | cons b rest ih =>
      rw [findButtonAtPosition_cons] at h
      by_cases hb : hitTest b pos
      · rw [if_pos hb] at h
        cases h
        simp
      · rw [if_neg hb, Option.map_eq_some'] at h
        obtain ⟨k, hk, rfl⟩ := h
        have := ih k hk
        simp only [List.length_cons]
        omega

theorem findButtonAtPosition_eq_none_iff (buttons : List MockButton) (pos : QPoint) :
    findButtonAtPosition buttons pos = none ↔ ∀ b ∈ buttons, hitTest b pos = false := by
  induction buttons with
  | nil => simp [findButtonAtPosition_nil]
  | cons b rest ih =>
      rw [findButtonAtPosition_cons]
      by_cases hb : hitTest b pos
      · simp [hb]
      · rw [if_neg hb, Option.map_eq_none']
        have hbf : hitTest b pos = false := Bool.eq_false_iff.mpr hb
        simp only [List.mem_cons, forall_eq_or_imp, ih, hbf, true_and]

theorem findButtonAtPosition_eq_some_iff (buttons : List MockButton) (pos : QPoint) (i : Nat) :
    findButtonAtPosition buttons pos = some i ↔
      ((∃ b, buttons.get? i = some b ∧ hitTest b pos = true) ∧
       ∀ j, j < i → ∀ b, buttons.get? j = some b → hitTest b pos = false) := by
  induction buttons generalizing i with
  | nil => simp [findButtonAtPosition_nil]
  | cons b rest ih =>
      rw [findButtonAtPosition_cons]
      by_cases hb : hitTest b pos
      · rw [if_pos hb]
        constructor
        · intro h
          cases h
          exact ⟨⟨b, rfl, hb⟩, fun j hj c hc => absurd hj (Nat.not_lt_zero j)⟩
        · rintro ⟨⟨c, hc, hcpos⟩, hfirst⟩
          cases i with
          | zero => rfl
          | succ k =>
              have h0 := hfirst 0 (Nat.succ_pos k) b rfl
              rw [hb] at h0
              simp at h0
      · rw [if_neg hb]
        have hbf : hitTest b pos = false := Bool.eq_false_iff.mpr hb
        cases i with
        | zero =>
            rw [Option.map_eq_some']
            constructor
            · rintro ⟨k, hk, hk0⟩
              omega
            · rintro ⟨⟨c, hc, hcpos⟩, hfirst⟩
              exfalso
              rw [List.get?_cons_zero, Option.some.injEq] at hc
              rw [hc, hcpos] at hbf
              simp at hbf
        | succ k =>
            rw [Option.map_eq_some']
            constructor
            · rintro ⟨m, hm, hmk⟩
              obtain rfl : m = k := by omega
              rw [ih] at hm
              obtain ⟨⟨c, hc, hcpos⟩, hfirst⟩ := hm
              refine ⟨⟨c, by simpa using hc, hcpos⟩, ?_⟩
              intro j hj d hd
              cases j with
              | zero =>
                  rw [List.get?_cons_zero, Option.some.injEq] at hd
                  rw [← hd]
                  exact hbf
              | succ j' =>
                  exact hfirst j' (by omega) d (by simpa using hd)
            · rintro ⟨⟨c, hc, hcpos⟩, hfirst⟩
              refine ⟨k, ?_, rfl⟩
              rw [ih]
              refine ⟨⟨c, by simpa using hc, hcpos⟩, ?_⟩
              intro j hj d hd
              exact hfirst (j + 1) (by omega) d (by simpa using hd)

/-! Lemmas about the clear loop, the flag setter and the selected indices. -/

theorem clearStep_length (bs : List MockButton) (n : Nat) :
    (clearStep bs n).1.length = bs.length := by
  induction bs generalizing n with
  | nil => rfl
  | cons b rest ih =>
      by_cases hb : b.selected
      · simp [clearStep, hb, ih]
      · simp [clearStep, Bool.eq_false_iff.mpr hb, ih]

theorem clearStep_selected_false (bs : List MockButton) (n : Nat) :
    ∀ b ∈ (clearStep bs n).1, b.selected = false := by
  induction bs generalizing n with
  | nil => intro b hb; simp [clearStep] at hb
  | cons b rest ih =>
      intro c hc
      by_cases hb : b.selected
      · simp only [clearStep, hb, if_true, List.mem_cons] at hc
        rcases hc with rfl | hc
        · rfl
        · exact ih (n + 1) c hc
      · have hbf : b.selected = false := Bool.eq_false_iff.mpr hb
        simp only [clearStep, hbf, Bool.false_eq_true, if_false, List.mem_cons] at hc
        rcases hc with rfl | hc
        · exact hbf
        · exact ih (n + 1) c hc

theorem clearStep_frame (bs : List MockButton) (n : Nat) :
    (clearStep bs n).1.map buttonFrame = bs.map buttonFrame := by
  induction bs generalizing n with
  | nil => rfl
  | cons b rest ih =>
      by_cases hb : b.selected
      · simp [clearStep, hb, ih, buttonFrame]
      · simp [clearStep, Bool.eq_false_iff.mpr hb, ih]

theorem clearStep_snd (bs : List MockButton) (n : Nat) :
    (clearStep bs n).2 = (selectedIndices bs n).map (fun j => (j, false)) := by
  induction bs generalizing n with
  | nil => rfl
  | cons b rest ih =>
      by_cases hb : b.selected
      · simp [clearStep, selectedIndices, hb, ih]
      · simp [clearStep, selectedIndices, Bool.eq_false_iff.mpr hb, ih]

theorem selectedIndices_length (bs : List MockButton) (n : Nat) :
    (selectedIndices bs n).length = (bs.filter (fun b => b.selected)).length := by
  induction bs generalizing n with
  | nil => rfl
  | cons b rest ih =>
      by_cases hb : b.selected
      · simp [selectedIndices, hb, List.filter_cons, ih]
      · simp [selectedIndices, Bool.eq_false_iff.mpr hb, List.filter_cons, ih]

theorem setSelectedAt_length (bs : List MockButton) (i : Nat) :
    (setSelectedAt bs i).length = bs.length := by
  induction bs generalizing i with
  | nil => rfl
  | cons b rest ih =>
      cases i with
      | zero => simp [setSelectedAt]
      | succ k => simp [setSelectedAt, ih]

theorem setSelectedAt_frame (bs : List MockButton) (i : Nat) :
    (setSelectedAt bs i).map buttonFrame = bs.map buttonFrame := by
  induction bs generalizing i with
  | nil => rfl
  | cons b rest ih =>
      cases i with
      | zero => simp [setSelectedAt, buttonFrame]
      | succ k => simp [setSelectedAt, ih]

theorem setSelectedAt_get (bs : List MockButton) (i j : Nat)
    (hj : j < (setSelectedAt bs i).length) (hj' : j < bs.length) :
    ((setSelectedAt bs i).get ⟨j, hj⟩).selected =
      if j = i then true else (bs.get ⟨j, hj'⟩).selected := by
  induction bs generalizing i j with
  | nil => simp at hj'
  | cons b rest ih =>
      cases i with
      | zero =>
          cases j with
          | zero => simp [setSelectedAt]
          | succ m =>
              have hne : m + 1 ≠ 0 := by omega
              simp only [setSelectedAt, hne, if_false]
              rfl
      | succ k =>
          cases j with
          | zero =>
              have hne : (0 : Nat) ≠ k + 1 := by omega
              simp only [setSelectedAt, hne, if_false]
              rfl
          | succ m =>
              have hm : m < (setSelectedAt rest k).length := by
                have := setSelectedAt_length rest k
                simp only [setSelectedAt, List.length_cons] at hj
                omega
              have hm' : m < rest.length := by
                simp at hj'
                omega
              have step := ih k m hm hm'
              have hiff : (m + 1 = k + 1) = (m = k) := by
                simp
              simp only [setSelectedAt, List.get_cons_succ, hiff]
              exact step

/-! Step lemmas for simulate_mouseMove. -/

theorem simulate_mouseMove_noop (h : MockHotbox) (pos : QPoint)
    (hw : findButtonAtPosition h.buttons pos = h.hoveredButton) :
    h.simulate_mouseMove pos = (h, []) := by
  simp [MockHotbox.simulate_mouseMove, hw]

theorem simulate_mouseMove_transition (h : MockHotbox) (pos : QPoint)
    (ht : findButtonAtPosition h.buttons pos ≠ h.hoveredButton) :
    h.simulate_mouseMove pos =
      match findButtonAtPosition h.buttons pos with
      | none => (⟨none, (clearStep h.buttons 0).1⟩, (clearStep h.buttons 0).2)
      | some i => (⟨some i, setSelectedAt (clearStep h.buttons 0).1 i⟩,
                   (clearStep h.buttons 0).2 ++ [(i, true)]) := by
  simp only [MockHotbox.simulate_mouseMove]
  rw [if_neg ht]

theorem simulate_mouseMove_hovered (h : MockHotbox) (pos : QPoint) :
    (h.simulate_mouseMove pos).1.hoveredButton = findButtonAtPosition h.buttons pos := by
  by_cases hw : findButtonAtPosition h.buttons pos = h.hoveredButton
  · rw [simulate_mouseMove_noop h pos hw]
    exact hw.symm
  · rw [simulate_mouseMove_transition h pos hw]
    cases hfind : findButtonAtPosition h.buttons pos <;> rfl

theorem simulate_mouseMove_frame (h : MockHotbox) (pos : QPoint) :
    (h.simulate_mouseMove pos).1.buttons.map buttonFrame = h.buttons.map buttonFrame := by
  by_cases hw : findButtonAtPosition h.buttons pos = h.hoveredButton
  · rw [simulate_mouseMove_noop h pos hw]
  · rw [simulate_mouseMove_transition h pos hw]
    cases hfind : findButtonAtPosition h.buttons pos with
    | none => exact clearStep_frame h.buttons 0
    | some i =>
        show (setSelectedAt (clearStep h.buttons 0).1 i).map buttonFrame = _
        rw [setSelectedAt_frame, clearStep_frame]

theorem simulate_mouseMove_length (h : MockHotbox) (pos : QPoint) :
    (h.simulate_mouseMove pos).1.buttons.length = h.buttons.length := by
  have := congrArg List.length (simulate_mouseMove_frame h pos)
  simpa using this

theorem hoverSync_after_transition (h : MockHotbox) (pos : QPoint)
    (ht : findButtonAtPosition h.buttons pos ≠ h.hoveredButton) :
    hoverSync (h.simulate_mouseMove pos).1 := by
  rw [simulate_mouseMove_transition h pos ht]
  cases hfind : findButtonAtPosition h.buttons pos with
  | none =>
      intro i hi
      constructor
      · intro hsel
        have hmem := List.get_mem (clearStep h.buttons 0).1 i hi
        have := clearStep_selected_false h.buttons 0 _ hmem
        rw [hsel] at this
        simp at this
      · intro hcontra
        simp at hcontra
  | some w =>
      intro i hi
      have hw : w < h.buttons.length := findButtonAtPosition_lt _ _ _ hfind
      have hlen : i < (clearStep h.buttons 0).1.length := by
        have h1 := setSelectedAt_length (clearStep h.buttons 0).1 w
        have h2 := clearStep_length h.buttons 0
        simp only [setSelectedAt_length] at hi
        exact hi
      rw [setSelectedAt_get _ w i _ hlen]
      by_cases hiw : i = w
      · simp [hiw]
      · simp only [hiw, if_false]
        have hmem := List.get_mem (clearStep h.buttons 0).1 i hlen
        have hns := clearStep_selected_false h.buttons 0 _ hmem
        rw [hns]
        simp [hiw]
        intro hcontra
        exact hiw hcontra.symm

/-! Lemmas connecting the synchronisation property to the single-selection
invariant and carrying it along a run of events. -/

theorem filter_selected_nil (bs : List MockButton)
    (h : ∀ c ∈ bs, c.selected = false) :
    bs.filter (fun b => b.selected) = [] := by
  rw [List.filter_eq_nil_iff]
  intro a ha
  rw [h a ha]
  simp

theorem filter_selected_length_le_one (bs : List MockButton) (k : Nat)
    (hk : ∀ i, (hi : i < bs.length) → (bs.get ⟨i, hi⟩).selected = true → i = k) :
    (bs.filter (fun b => b.selected)).length ≤ 1 := by
  induction bs generalizing k with
  | nil => simp
  | cons b rest ih =>
      rw [List.filter_cons]
      by_cases hb : b.selected
      · rw [if_pos hb]
        have hrest : ∀ c ∈ rest, c.selected = false := by
          intro c hc
          by_contra hcc
          have hcs : c.selected = true := by
            cases hv : c.selected
            · exact absurd hv hcc
            · rfl
          obtain ⟨⟨j, hj⟩, hjc⟩ := List.mem_iff_get.mp hc
          have hjk := hk (j + 1) (by simp; omega) (by
            rw [List.get_cons_succ, hjc]
            exact hcs)
          have h0k := hk 0 (by simp) (by simpa using hb)
          omega
        rw [filter_selected_nil rest hrest]
        simp
      · rw [if_neg hb]
        cases k with
        | zero =>
            have hrest : ∀ c ∈ rest, c.selected = false := by
              intro c hc
              by_contra hcc
              have hcs : c.selected = true := by
                cases hv : c.selected
                · exact absurd hv hcc
                · rfl
              obtain ⟨⟨j, hj⟩, hjc⟩ := List.mem_iff_get.mp hc
              have hjk := hk (j + 1) (by simp; omega) (by
                rw [List.get_cons_succ, hjc]
                exact hcs)
              omega
            rw [filter_selected_nil rest hrest]
            simp
        | succ m =>
            apply ih m
            intro i hi hsel
            have := hk (i + 1) (by simp; omega) (by
              rw [List.get_cons_succ]
              exact hsel)
            omega

theorem hoverSync_singleSelection (h : MockHotbox) (hs : hoverSync h) :
    singleSelection h := by
  constructor
  · cases hh : h.hoveredButton with
    | none =>
        have hall : ∀ c ∈ h.buttons, c.selected = false := by
          intro c hc
          obtain ⟨⟨j, hj⟩, hjc⟩ := List.mem_iff_get.mp hc
          cases hv : c.selected
          · rfl
          · exfalso
            have := (hs j hj).mp (by rw [hjc]; exact hv)
            rw [hh] at this
            simp at this
        rw [filter_selected_nil h.buttons hall]
        simp
    | some k =>
        apply filter_selected_length_le_one h.buttons k
        intro i hi hsel
        have := (hs i hi).mp hsel
        rw [hh] at this
        exact (Option.some.inj this).symm
  · intro i hi hsel
    exact (hs i hi).mp hsel

theorem hoverSync_preserved (h : MockHotbox) (pos : QPoint) (hs : hoverSync h) :
    hoverSync (h.simulate_mouseMove pos).1 := by
  by_cases hw : findButtonAtPosition h.buttons pos = h.hoveredButton
  · rw [simulate_mouseMove_noop h pos hw]
    exact hs
  · exact hoverSync_after_transition h pos hw

theorem hoverSync_initial (buttons : List MockButton)
    (hb : ∀ b ∈ buttons, b.selected = false) :
    hoverSync ⟨none, buttons⟩ := by
  intro i hi
  constructor
  · intro hsel
    have := hb _ (List.get_mem buttons i hi)
    rw [this] at hsel
    simp at hsel
  · intro hcontra
    simp at hcontra

theorem runMoves_nil (h : MockHotbox) : runMoves h [] = h := rfl

theorem runMoves_cons (h : MockHotbox) (p : QPoint) (ps : List QPoint) :
    runMoves h (p :: ps) = runMoves (h.simulate_mouseMove p).1 ps := rfl

theorem hoverSync_runMoves (h : MockHotbox) (ps : List QPoint) (hs : hoverSync h) :
    hoverSync (runMoves h ps) := by
  induction ps generalizing h with
  | nil => exact hs
  | cons p rest ih =>
      rw [runMoves_cons]
      exact ih _ (hoverSync_preserved h p hs)

theorem findButtonAtPosition_congr (as bs : List MockButton) (pos : QPoint)
    (h : as.map buttonFrame = bs.map buttonFrame) :
    findButtonAtPosition as pos = findButtonAtPosition bs pos := by
  induction as generalizing bs with
  | nil =>
      cases bs with
      | nil => rfl
      | cons b bs' => simp at h
  | cons a as' ih =>
      cases bs with
      | nil => simp at h
      | cons b bs' =>
          simp only [List.map_cons, List.cons.injEq] at h
          obtain ⟨hf, ht⟩ := h
          have hpp : a.parent_pos = b.parent_pos := by
            simp only [buttonFrame, Prod.mk.injEq] at hf
            exact hf.2.1
          have hsz : a.size = b.size := by
            simp only [buttonFrame, Prod.mk.injEq] at hf
            exact hf.2.2
          rw [findButtonAtPosition_cons, findButtonAtPosition_cons,
              hitTest_congr a b pos hpp hsz, ih bs' ht]

theorem findButtonAtPosition_after_step (h : MockHotbox) (p q : QPoint) :
    findButtonAtPosition (h.simulate_mouseMove p).1.buttons q =
      findButtonAtPosition h.buttons q :=
  findButtonAtPosition_congr _ _ q (simulate_mouseMove_frame h p)

theorem filter_length_eq_ite (bs : List MockButton)
    (hle : (bs.filter (fun b => b.selected)).length ≤ 1) :
    (bs.filter (fun b => b.selected)).length =
      if bs.any (fun b => b.selected) then 1 else 0 := by
  by_cases hany : bs.any (fun b => b.selected)
  · rw [if_pos hany]
    rw [List.any_eq_true] at hany
    obtain ⟨c, hc, hcs⟩ := hany
    have hmem : c ∈ bs.filter (fun b => b.selected) := List.mem_filter.mpr ⟨hc, hcs⟩
    have hpos : 0 < (bs.filter (fun b => b.selected)).length :=
      List.length_pos.mpr (List.ne_nil_of_mem hmem)
    omega
  · rw [if_neg hany]
    rw [List.any_eq_true] at hany
    have hnil : bs.filter (fun b => b.selected) = [] := by
      rw [List.filter_eq_nil_iff]
      intro a ha hsel
      exact hany ⟨a, ha, hsel⟩
    rw [hnil]
    rfl

theorem hitTest_false_of_negative (b : MockButton) (p : QPoint)
    (hneg : b.size.1 < 0 ∨ b.size.2 < 0) : hitTest b p = false := by
  rw [hitTest_eq]
  simp only [decide_eq_false_iff_not]
  rintro ⟨h1, h2, h3, h4⟩
  omega

/-! Concrete fixtures used by the closed witness statements. -/

/-- The hotbox of the test fixtures in its initial state: no hovered button,
the three buttons of test_hover_state_management, all unselected. -/
def hotbox0 : MockHotbox := ⟨none, [button1, button2, button3]⟩

/-- Button1 with its selection flag set. -/
def selButton1 : MockButton := ⟨"Button1", (10, 10), (105, 35), true⟩

/-- A hotbox hovering Button1, whose flag is set, satisfying the invariant. -/
def hotbox1 : MockHotbox := ⟨some 0, [selButton1, button2, button3]⟩

/-- A button overlapping Button1: offset (20, 10), size (105, 35). -/
def overlapB : MockButton := ⟨"OverlapB", (20, 10), (105, 35), false⟩

/-- A zero-size button at the origin, probing degenerate containment. -/
def zeroButton : MockButton := ⟨"Zero", (0, 0), (0, 0), false⟩

/-- A button with strictly negative width. -/
def negButton : MockButton := ⟨"Neg", (0, 0), (-1, 10), false⟩

theorem hotbox1_singleSelection : singleSelection hotbox1 := by
  constructor
  · decide
  · intro i hi hsel
    have h3 : i < 3 := hi
    interval_cases i
    · rfl
    · exact Bool.noConfusion hsel
    · exact Bool.noConfusion hsel

/-! The claims. -/

/-- C2: the containment test is boundary-inclusive on all four edges: a
mapped point lies within a region exactly when 0 ≤ x ≤ width and
0 ≤ y ≤ height; concretely, for Button1 at offset (10, 10) with size
(105, 35), the container points (10, 10), (115, 10), (10, 45), (115, 45)
are contained while (9, 10) and (116, 10) are not. -/
theorem containment_boundary_inclusive :
    (∀ (b : MockButton) (p : QPoint),
        hitTest b p = true ↔
          (0 ≤ (b.mapFrom p).x ∧ (b.mapFrom p).x ≤ b.size.1 ∧
           0 ≤ (b.mapFrom p).y ∧ (b.mapFrom p).y ≤ b.size.2)) ∧
    (hitTest button1 ⟨10, 10⟩ = true ∧ hitTest button1 ⟨115, 10⟩ = true ∧
     hitTest button1 ⟨10, 45⟩ = true ∧ hitTest button1 ⟨115, 45⟩ = true ∧
     hitTest button1 ⟨9, 10⟩ = false ∧ hitTest button1 ⟨116, 10⟩ = false) := by
  constructor
  · intro b p
    rw [hitTest_true_iff]
    simp [MockButton.mapFrom]
  · decide

/-- C3: the lookup walks the collection in order and returns the first
region whose boundary-inclusive containment holds for the mapped point,
none when no region contains it; in particular a point inside two
overlapping regions resolves to the earlier one. -/
theorem first_match_semantics (buttons : List MockButton) (pos : QPoint) :
    (∀ i : Nat, findButtonAtPosition buttons pos = some i ↔
        ((∃ b, buttons.get? i = some b ∧ hitTest b pos = true) ∧
         ∀ j, j < i → ∀ b, buttons.get? j = some b → hitTest b pos = false)) ∧
    (findButtonAtPosition buttons pos = none ↔
        ∀ b ∈ buttons, hitTest b pos = false) ∧
    (∀ a b : MockButton, hitTest a pos = true → hitTest b pos = true →
        findButtonAtPosition [a, b] pos = some 0) := by
  refine ⟨fun i => findButtonAtPosition_eq_some_iff buttons pos i,
          findButtonAtPosition_eq_none_iff buttons pos, ?_⟩
  intro a b ha hb
  rw [findButtonAtPosition_cons, if_pos ha]

theorem first_match_semantics_witness :
    (hitTest button1 ⟨62, 27⟩ = true ∧ hitTest overlapB ⟨62, 27⟩ = true) ∧
    findButtonAtPosition [button1, overlapB] ⟨62, 27⟩ = some 0 :=
  ⟨by decide,
   (first_match_semantics [button1, overlapB] ⟨62, 27⟩).2.2 button1 overlapB
     (by decide) (by decide)⟩

/-- C4: the coordinate mapper is a total pure function: it returns exactly
the componentwise difference of the point and the region offset. -/
theorem mapFrom_pure_subtraction :
    ∀ (b : MockButton) (p : QPoint),
      b.mapFrom p = ⟨p.x - b.parent_pos.1, p.y - b.parent_pos.2⟩ :=
  fun _ _ => rfl

/-- C9: coordinate mapping round-trips exactly: adding the offset back to
the mapped point reproduces the original point. -/
theorem mapFrom_roundTrip :
    ∀ (b : MockButton) (p : QPoint), mapTo b (b.mapFrom p) = p := by
  intro b p
  cases p with
  | mk px py => simp [mapTo, MockButton.mapFrom]

/-- C10: the event handler mutates nothing except selection flags and the
hovered reference: every button's identifier, offset and size, and the
button list's membership and order, are unchanged by the call; the lookup
itself is a pure function of the list and the position. -/
theorem frame_effects :
    ∀ (h : MockHotbox) (pos : QPoint),
      (h.simulate_mouseMove pos).1.buttons.map buttonFrame =
        h.buttons.map buttonFrame ∧
      (h.simulate_mouseMove pos).1.buttons.length = h.buttons.length :=
  fun h pos => ⟨simulate_mouseMove_frame h pos, simulate_mouseMove_length h pos⟩

/-- C1: for every sequence of pointer-move events applied from the initial
state (no hovered reference, all selection flags clear), after each event
the number of buttons with selection flag set is 0 or 1, and a flagged
button is exactly the one the hotbox's hovered reference points at. -/
theorem single_selection_after_moves (buttons : List MockButton)
    (hclear : ∀ b ∈ buttons, b.selected = false) (ps : List QPoint) :
    singleSelection (runMoves ⟨none, buttons⟩ ps) :=
  hoverSync_singleSelection _
    (hoverSync_runMoves _ ps (hoverSync_initial buttons hclear))

theorem single_selection_after_moves_witness :
    (∀ b ∈ [button1, button2, button3], b.selected = false) ∧
    singleSelection (runMoves ⟨none, [button1, button2, button3]⟩
      [⟨62, 27⟩, ⟨177, 27⟩, ⟨5, 5⟩]) :=
  ⟨by decide,
   single_selection_after_moves [button1, button2, button3] (by decide)
     [⟨62, 27⟩, ⟨177, 27⟩, ⟨5, 5⟩]⟩

/-- C5: on any transition event the handler clears every currently flagged
button, emitting one deselect per flagged button in list order, stores the
winner as the hovered reference and, when the winner exists, sets its flag
and emits one select; afterwards the selection state is synchronised with
the hovered reference and the single-selection invariant holds, whatever
the entry state was. -/
theorem transition_clears_and_selects (h : MockHotbox) (pos : QPoint)
    (ht : findButtonAtPosition h.buttons pos ≠ h.hoveredButton) :
    (h.simulate_mouseMove pos).1.hoveredButton =
      findButtonAtPosition h.buttons pos ∧
    (h.simulate_mouseMove pos).2 =
      (selectedIndices h.buttons 0).map (fun j => (j, false)) ++
      (match findButtonAtPosition h.buttons pos with
       | none => []
       | some i => [(i, true)]) ∧
    hoverSync (h.simulate_mouseMove pos).1 ∧
    singleSelection (h.simulate_mouseMove pos).1 := by
  refine ⟨simulate_mouseMove_hovered h pos, ?_,
    hoverSync_after_transition h pos ht,
    hoverSync_singleSelection _ (hoverSync_after_transition h pos ht)⟩
  rw [simulate_mouseMove_transition h pos ht]
  cases hfind : findButtonAtPosition h.buttons pos with
  | none => simp [clearStep_snd]
  | some i => simp [clearStep_snd]

theorem transition_clears_and_selects_witness :
    (findButtonAtPosition hotbox0.buttons ⟨62, 27⟩ ≠ hotbox0.hoveredButton) ∧
    (hotbox0.simulate_mouseMove ⟨62, 27⟩).1.hoveredButton =
      findButtonAtPosition hotbox0.buttons ⟨62, 27⟩ :=
  ⟨by decide, (transition_clears_and_selects hotbox0 ⟨62, 27⟩ (by decide)).1⟩

/-- C6: when the computed winner is the same button identity as the stored
hovered reference (including both none), the handler changes no state and
emits no events; hence a second call whose position maps to the same
winner as the first emits nothing and changes nothing. -/
theorem noop_fast_path :
    (∀ (h : MockHotbox) (pos : QPoint),
        findButtonAtPosition h.buttons pos = h.hoveredButton →
        h.simulate_mouseMove pos = (h, [])) ∧
    (∀ (h : MockHotbox) (p q : QPoint),
        findButtonAtPosition h.buttons q = findButtonAtPosition h.buttons p →
        (h.simulate_mouseMove p).1.simulate_mouseMove q =
          ((h.simulate_mouseMove p).1, [])) := by
  refine ⟨simulate_mouseMove_noop, ?_⟩
  intro h p q hpq
  apply simulate_mouseMove_noop
  rw [findButtonAtPosition_after_step, hpq, ← simulate_mouseMove_hovered h p]

theorem noop_fast_path_witness :
    (findButtonAtPosition hotbox0.buttons ⟨62, 27⟩ =
       findButtonAtPosition hotbox0.buttons ⟨62, 27⟩) ∧
    (hotbox0.simulate_mouseMove ⟨62, 27⟩).1.simulate_mouseMove ⟨62, 27⟩ =
      ((hotbox0.simulate_mouseMove ⟨62, 27⟩).1, []) :=
  ⟨rfl, noop_fast_path.2 hotbox0 ⟨62, 27⟩ ⟨62, 27⟩ rfl⟩

/-- C7: for a position outside every button, the computed winner is none,
the handler clears any previously selected button and ends with no hovered
reference; assuming the single-selection invariant on entry it emits only
deselect events, exactly one when a button was previously selected and
none otherwise. -/
theorem outside_all_regions (h : MockHotbox) (pos : QPoint)
    (hinv : singleSelection h)
    (hout : ∀ b ∈ h.buttons, hitTest b pos = false) :
    findButtonAtPosition h.buttons pos = none ∧
    (h.simulate_mouseMove pos).1.hoveredButton = none ∧
    (∀ b ∈ (h.simulate_mouseMove pos).1.buttons, b.selected = false) ∧
    (∀ e ∈ (h.simulate_mouseMove pos).2, e.2 = false) ∧
    (h.simulate_mouseMove pos).2.length =
      (if h.buttons.any (fun b => b.selected) then 1 else 0) := by
  have hnone : findButtonAtPosition h.buttons pos = none :=
    (findButtonAtPosition_eq_none_iff h.buttons pos).mpr hout
  by_cases hh : h.hoveredButton = none
  · have hw : findButtonAtPosition h.buttons pos = h.hoveredButton := by
      rw [hnone, hh]
    have hall : ∀ c ∈ h.buttons, c.selected = false := by
      intro c hc
      obtain ⟨⟨j, hj⟩, hjc⟩ := List.mem_iff_get.mp hc
      cases hv : c.selected
      · rfl
      · exfalso
        have := hinv.2 j hj (by rw [hjc]; exact hv)
        rw [hh] at this
        simp at this
    have hanyf : h.buttons.any (fun b => b.selected) = false := by
      cases hva : h.buttons.any (fun b => b.selected)
      · rfl
      · exfalso
        rw [List.any_eq_true] at hva
        obtain ⟨c, hc, hcs⟩ := hva
        rw [hall c hc] at hcs
        simp at hcs
    rw [simulate_mouseMove_noop h pos hw]
    refine ⟨hnone, hh, hall, by simp, ?_⟩
    rw [hanyf]
    rfl
  · have ht : findButtonAtPosition h.buttons pos ≠ h.hoveredButton := by
      rw [hnone]
      intro hc
      exact hh hc.symm
    rw [simulate_mouseMove_transition h pos ht, hnone]
    refine ⟨rfl, rfl, clearStep_selected_false h.buttons 0, ?_, ?_⟩
    · intro e he
      simp only [clearStep_snd, List.mem_map] at he
      obtain ⟨j, _, rfl⟩ := he
      rfl
    · simp only [clearStep_snd, List.length_map, selectedIndices_length]
      exact filter_length_eq_ite h.buttons hinv.1

theorem outside_all_regions_witness :
    singleSelection hotbox1 ∧
    (∀ b ∈ hotbox1.buttons, hitTest b ⟨5, 5⟩ = false) ∧
    findButtonAtPosition hotbox1.buttons ⟨5, 5⟩ = none :=
  ⟨hotbox1_singleSelection, by decide,
   (outside_all_regions hotbox1 ⟨5, 5⟩ hotbox1_singleSelection (by decide)).1⟩

/-- C8 counterexample: a button of zero width and zero height still
contains the point at its own corner, because the containment test is
inclusive on both ends, and the lookup returns it as the winner; so the
claim that width ≤ 0 or height ≤ 0 never contains any point is false on
the code. -/
theorem degenerate_containment_counterexample :
    (zeroButton.size.1 ≤ 0 ∧ zeroButton.size.2 ≤ 0) ∧
    hitTest zeroButton ⟨0, 0⟩ = true ∧
    findButtonAtPosition [zeroButton] ⟨0, 0⟩ = some 0 := by
  decide

/-- C8 amended: a button of strictly negative width or strictly negative
height never contains any point, and is never returned as the winner. -/
theorem negative_size_never_contains :
    (∀ (b : MockButton) (p : QPoint),
        (b.size.1 < 0 ∨ b.size.2 < 0) → hitTest b p = false) ∧
    (∀ (buttons : List MockButton) (pos : QPoint) (i : Nat),
        (hi : i < buttons.length) →
        ((buttons.get ⟨i, hi⟩).size.1 < 0 ∨ (buttons.get ⟨i, hi⟩).size.2 < 0) →
        findButtonAtPosition buttons pos ≠ some i) := by
  refine ⟨hitTest_false_of_negative, ?_⟩
  intro buttons pos i hi hneg hfind
  rw [findButtonAtPosition_eq_some_iff] at hfind
  obtain ⟨⟨c, hc, hcpos⟩, _⟩ := hfind
  rw [List.get?_eq_get hi] at hc
  have hgc : buttons.get ⟨i, hi⟩ = c := Option.some.inj hc
  rw [← hgc] at hcpos
  rw [hitTest_false_of_negative _ pos hneg] at hcpos
  exact Bool.noConfusion hcpos

theorem negative_size_never_contains_witness :
    (negButton.size.1 < 0 ∨ negButton.size.2 < 0) ∧
    hitTest negButton ⟨0, 0⟩ = false :=
  ⟨by decide, negative_size_never_contains.1 negButton ⟨0, 0⟩ (by decide)⟩
